import Mathlib

/-!
# Verification of the acs-notebook calibration workflows

A shallow embedding in Lean 4 of the two Jupyter notebooks of the
`acs-notebook` repository (`acs_sbc_dark_analysis` and
`acs_pixel_area_maps`), together with theorems settling the claims of the
natural-language specification against that embedding.

FITS files are modelled as lists of HDUs (header-data units), a header as
an association list of keyword/value pairs, and image data as a rational
matrix (a list of rows).  The file system is modelled as an association
list from path names to contents.  Effectful notebook cells are embedded
as explicit state-passing functions; library failures (missing files,
missing keywords) are modelled with `Except`.
-/

namespace AcsNotebook

/-! ## FITS data model -/

/-- A FITS header value: a string or a (rational) number. -/
inductive HVal where
  | str (s : String)
  | num (q : ℚ)
  deriving DecidableEq, Repr

/-- A FITS header: keyword/value pairs in file order. -/
abbrev Header := List (String × HVal)

/-- Image data: a matrix of rationals, stored as a list of rows. -/
abbrev Img := List (List ℚ)

/-- Keyword lookup in a header (`header[key]` in astropy). -/
def Header.getVal (h : Header) (k : String) : Option HVal :=
  (h.find? (fun p => p.1 == k)).map Prod.snd

/-- Keyword assignment in a header (`header[key] = v` in astropy):
replaces the value in place when the keyword exists, appends otherwise. -/
def Header.setVal (h : Header) (k : String) (v : HVal) : Header :=
  if h.any (fun p => p.1 == k) then
    h.map (fun p => if p.1 == k then (k, v) else p)
  else
    h ++ [(k, v)]

/-- A header-data unit: one extension of a FITS file. -/
structure Hdu where
  header : Header
  data : Img
  deriving DecidableEq, Repr

/-- A FITS file: its list of HDUs (extension 0 is the primary HDU). -/
abbrev HduList := List Hdu

/-- The file system as seen by the notebooks: path names mapped to FITS
contents, one entry per existing file. -/
abbrev FStore := List (String × HduList)

/-- Look a file up by name. -/
def FStore.lookupFile (st : FStore) (name : String) : Option HduList :=
  (st.find? (fun p => p.1 == name)).map Prod.snd

/-- `fits.getval(file, key, ext=e)`: read one header keyword of one
extension of a file on disk; raises (models `Except.error`) when the file,
the extension or the keyword is missing. -/
def getvalE (st : FStore) (name : String) (key : String) (ext : Nat) :
    Except String HVal :=
  match st.lookupFile name with
  | none => .error ("FileNotFoundError " ++ name)
  | some hdus =>
    match hdus.get? ext with
    | none => .error ("IndexError " ++ name)
    | some hdu =>
      match hdu.header.getVal key with
      | none => .error ("KeyError " ++ key)
      | some v => .ok v

/-- Read a keyword expected to hold a string (DATE-OBS, TIME-OBS, FILTER1). -/
def getvalStr (st : FStore) (name key : String) (ext : Nat) :
    Except String String :=
  match getvalE st name key ext with
  | .error e => .error e
  | .ok (.str s) => .ok s
  | .ok (.num _) => .error ("TypeError " ++ key)

/-- Read a keyword expected to hold a number (MDECODT1, MDECODT2, EXPTIME). -/
def getvalNum (st : FStore) (name key : String) (ext : Nat) :
    Except String ℚ :=
  match getvalE st name key ext with
  | .error e => .error e
  | .ok (.num q) => .ok q
  | .ok (.str _) => .error ("TypeError " ++ key)

/-! ## Metadata-extraction loop (`acs_sbc_dark_analysis`, cells 19/21)

```python
flt_list = glob.glob('*_flt.fits')
flt_table = Table(names=('file', 'start', 'filter1', 'mdecodt1', 'mdecodt2', 'avgtemp'), ...)
for file in flt_list:
    filt = fits.getval(file,'FILTER1', ext=0)
    date = fits.getval(file,'DATE-OBS', ext=0)
    time = fits.getval(file,'TIME-OBS', ext=0)
    t1 = fits.getval(file,'MDECODT1', ext=1)
    t2 = fits.getval(file,'MDECODT2', ext=1)
    starttime = date + 'T' + time
    avgtemp = (t1+t2) / 2
    flt_table.add_row((file, starttime, filt, t1, t2, avgtemp))
```
-/

/-- One row of `flt_table`. -/
structure FltRow where
  file : String
  start : String
  filter1 : String
  mdecodt1 : ℚ
  mdecodt2 : ℚ
  avgtemp : ℚ
  deriving DecidableEq, Repr

/-- Whether `s` ends with the string `suf` (suffix test on the character
lists; the meaning of a leading `*` glob pattern). -/
def strEndsWith (s suf : String) : Bool :=
  suf.data.isSuffixOf s.data

/-- `glob.glob('*_flt.fits')`: the names of files in the store matched by
the pattern, i.e. ending in `_flt.fits`. -/
def globFlt (st : FStore) : List String :=
  (st.map Prod.fst).filter (fun n => strEndsWith n "_flt.fits")

/-- The body of one iteration of the metadata-extraction loop: the five
`fits.getval` reads and the construction of the row that `add_row`
appends. -/
def extractRow (st : FStore) (file : String) : Except String FltRow :=
  match getvalStr st file "FILTER1" 0 with
  | .error e => .error e
  | .ok filt =>
  match getvalStr st file "DATE-OBS" 0 with
  | .error e => .error e
  | .ok date =>
  match getvalStr st file "TIME-OBS" 0 with
  | .error e => .error e
  | .ok time =>
  match getvalNum st file "MDECODT1" 1 with
  | .error e => .error e
  | .ok t1 =>
  match getvalNum st file "MDECODT2" 1 with
  | .error e => .error e
  | .ok t2 =>
  .ok ⟨file, date ++ "T" ++ time, filt, t1, t2, (t1 + t2) / 2⟩

/-- The loop body iterated over the remaining file names: extract the
row for the next file and append it to the table with `add_row`; a
failing header read aborts the loop with the library error. -/
def addRowLoop (st : FStore) : List String → List FltRow → Except String (List FltRow)
  | [], tbl => .ok tbl
  | n :: ns, tbl =>
    match extractRow st n with
    | .error e => .error e
    | .ok row => addRowLoop st ns (tbl ++ [row])

/-- The whole loop: starting from the empty table, iterate over the
glob-matched files in order. -/
def buildFltTable (st : FStore) : Except String (List FltRow) :=
  addRowLoop st (globFlt st) []

/-- `flt_table.sort('avgtemp')`: sort the rows of the table by the
`avgtemp` column (each row moved as a unit). -/
def sortTable (rows : List FltRow) : List FltRow :=
  rows.insertionSort (fun a b => a.avgtemp ≤ b.avgtemp)

/-! ## Helper lemmas -/

/-- The list of rows the loop would produce, one per name, first failure
aborting (specification-side restatement of the loop used to reason about
`buildFltTable`). -/
def mapExtract (st : FStore) : List String → Except String (List FltRow)
  | [] => .ok []
  | n :: ns =>
    match extractRow st n, mapExtract st ns with
    | .error e, _ => .error e
    | .ok _, .error e => .error e
    | .ok r, .ok rs => .ok (r :: rs)

/-- Unfolding of one successful row extraction into its five header reads. -/
theorem extractRow_ok_iff (st : FStore) (file : String) (r : FltRow) :
    extractRow st file = .ok r ↔
      ∃ filt date time t1 t2,
        getvalStr st file "FILTER1" 0 = .ok filt ∧
        getvalStr st file "DATE-OBS" 0 = .ok date ∧
        getvalStr st file "TIME-OBS" 0 = .ok time ∧
        getvalNum st file "MDECODT1" 1 = .ok t1 ∧
        getvalNum st file "MDECODT2" 1 = .ok t2 ∧
        r = ⟨file, date ++ "T" ++ time, filt, t1, t2, (t1 + t2) / 2⟩ := by
  constructor
  · intro h
    unfold extractRow at h
    split at h
    · cases h
    rename_i filt h1
    split at h
    · cases h
    rename_i date h2
    split at h
    · cases h
    rename_i time h3
    split at h
    · cases h
    rename_i t1 h4
    split at h
    · cases h
    rename_i t2 h5
    cases h
    exact ⟨filt, date, time, t1, t2, h1, h2, h3, h4, h5, rfl⟩
  · rintro ⟨filt, date, time, t1, t2, h1, h2, h3, h4, h5, rfl⟩
    unfold extractRow
    rw [h1, h2, h3, h4, h5]

/-- The accumulating loop produces the same result as extracting each
row in order and prepending the accumulator. -/
theorem addRowLoop_eq_mapExtract (st : FStore) :
    ∀ (names : List String) (acc : List FltRow),
      addRowLoop st names acc = (mapExtract st names).map (fun rs => acc ++ rs)
  | [], acc => by simp [addRowLoop, mapExtract, Except.map]
  | n :: ns, acc => by
    unfold addRowLoop mapExtract
    cases h : extractRow st n with
    | error e => rfl
    | ok r =>
      show addRowLoop st ns (acc ++ [r]) = _
      rw [addRowLoop_eq_mapExtract st ns (acc ++ [r])]
      cases h2 : mapExtract st ns with
      | error e => rfl
      | ok rs => simp [Except.map]

/-- A right member of a `Forall₂` pair has a related left partner. -/
theorem forall₂_exists_left {α β : Type} {R : α → β → Prop} :
    ∀ {l₁ : List α} {l₂ : List β} {b : β},
      List.Forall₂ R l₁ l₂ → b ∈ l₂ → ∃ a, a ∈ l₁ ∧ R a b := by
  intro l₁ l₂ b h hb
  induction h with
  | nil => cases hb
  | cons hr _ ih =>
    rcases List.mem_cons.mp hb with rfl | hb2
    · exact ⟨_, List.mem_cons_self _ _, hr⟩
    · obtain ⟨a, ha, hab⟩ := ih hb2
      exact ⟨a, List.mem_cons_of_mem _ ha, hab⟩

/-- A successful extraction over a name list is pointwise successful. -/
theorem mapExtract_forall₂ (st : FStore) :
    ∀ (names : List String) (rows : List FltRow),
      mapExtract st names = .ok rows →
      List.Forall₂ (fun file r => extractRow st file = .ok r) names rows
  | [], rows, h => by
    unfold mapExtract at h
    cases h
    exact List.Forall₂.nil
  | n :: ns, rows, h => by
    unfold mapExtract at h
    cases h1 : extractRow st n with
    | error e => rw [h1] at h; cases h
    | ok r =>
      rw [h1] at h
      cases h2 : mapExtract st ns with
      | error e => rw [h2] at h; cases h
      | ok rs =>
        rw [h2] at h
        cases h
        exact List.Forall₂.cons h1 (mapExtract_forall₂ st ns rs h2)

/-! ## Claim theorems: table construction -/

/-- **C1** Table construction: when the metadata-extraction loop finishes,
the table holds exactly one row per file matched by `*_flt.fits`, in glob
order; each row carries the file name, DATE-OBS and TIME-OBS joined by
`T`, FILTER1 from the primary header, and MDECODT1/MDECODT2 from the
first science extension; files outside the matched list contribute no
row. -/
theorem c1_table_construction (st : FStore) (rows : List FltRow)
    (h : buildFltTable st = .ok rows) :
    List.Forall₂ (fun file r => extractRow st file = .ok r) (globFlt st) rows ∧
    rows.length = (globFlt st).length ∧
    (∀ i file r, (globFlt st).get? i = some file → rows.get? i = some r →
      r.file = file ∧
      ∃ filt date time t1 t2,
        getvalStr st file "FILTER1" 0 = .ok filt ∧
        getvalStr st file "DATE-OBS" 0 = .ok date ∧
        getvalStr st file "TIME-OBS" 0 = .ok time ∧
        getvalNum st file "MDECODT1" 1 = .ok t1 ∧
        getvalNum st file "MDECODT2" 1 = .ok t2 ∧
        r = ⟨file, date ++ "T" ++ time, filt, t1, t2, (t1 + t2) / 2⟩) ∧
    (∀ r, r ∈ rows → r.file ∈ globFlt st) := by
  have hfold : mapExtract st (globFlt st) = .ok rows := by
    unfold buildFltTable at h
    rw [addRowLoop_eq_mapExtract st (globFlt st) []] at h
    cases h2 : mapExtract st (globFlt st) <;> rw [h2] at h <;>
      simp [Except.map] at h
    rw [h]
  have hf : List.Forall₂ (fun file r => extractRow st file = .ok r)
      (globFlt st) rows := mapExtract_forall₂ st _ _ hfold
  refine ⟨hf, hf.length_eq.symm, ?_, ?_⟩
  · intro i file r hget hrow
    have hrel : extractRow st file = .ok r := by
      have := List.forall₂_iff_get.mp hf
      obtain ⟨hlen, hidx⟩ := this
      have hi : i < (globFlt st).length := by
        by_contra hlt
        push_neg at hlt
        rw [List.get?_eq_none.mpr hlt] at hget
        cases hget
      have h2 := hidx i hi (by omega)
      rw [List.get?_eq_get hi] at hget
      rw [List.get?_eq_get (by omega)] at hrow
      cases hget; cases hrow
      simpa using h2
    obtain ⟨filt, date, time, t1, t2, h1, h2, h3, h4, h5, hr⟩ :=
      (extractRow_ok_iff st file r).mp hrel
    exact ⟨by rw [hr], filt, date, time, t1, t2, h1, h2, h3, h4, h5, hr⟩
  · intro r hr
    obtain ⟨file, hfile, hrel⟩ := forall₂_exists_left hf hr
    obtain ⟨_, _, _, _, _, _, _, _, _, _, hreq⟩ :=
      (extractRow_ok_iff st file r).mp hrel
    rw [hreq]
    exact hfile

/-- A small concrete file store: one flat-fielded science file with its
housekeeping headers and one raw dark file. -/
def demoStore : FStore :=
  [("jcmc11ctq_flt.fits",
    [⟨[("FILTER1", .str "F165LP"), ("DATE-OBS", .str "2016-10-01"),
       ("TIME-OBS", .str "01:22:11")], []⟩,
     ⟨[("MDECODT1", .num 17), ("MDECODT2", .num 19)], [[1, 2], [3, 4]]⟩]),
   ("jcrx01iiq_raw.fits",
    [⟨[("exptime", .num 1000)], []⟩,
     ⟨[], [[5, 6], [7, 8]]⟩])]

/-- The row the extraction loop produces for the science file above. -/
def demoRow : FltRow :=
  ⟨"jcmc11ctq_flt.fits", "2016-10-01T01:22:11", "F165LP", 17, 19, (17 + 19) / 2⟩

/-- **C1 witness**: the table-construction theorem applied to the
concrete store. -/
theorem c1_table_construction_witness :
    List.Forall₂ (fun file r => extractRow demoStore file = .ok r)
      (globFlt demoStore) [demoRow] ∧
    ∀ r, r ∈ [demoRow] → r.file ∈ globFlt demoStore :=
  ⟨(c1_table_construction demoStore [demoRow] (by rfl)).1,
   (c1_table_construction demoStore [demoRow] (by rfl)).2.2.2⟩

/-! ## Claim theorems: table sorting -/

instance : IsTotal FltRow (fun a b => a.avgtemp ≤ b.avgtemp) :=
  ⟨fun a b => le_total a.avgtemp b.avgtemp⟩

instance : IsTrans FltRow (fun a b => a.avgtemp ≤ b.avgtemp) :=
  ⟨fun _ _ _ hab hbc => le_trans hab hbc⟩

/-- **C2** Table sorting: `flt_table.sort('avgtemp')` permutes the rows
(each row kept whole, so every other column value stays attached to its
avgtemp value), arranges them in non-decreasing order of the `avgtemp`
column, and no row is created or lost. -/
theorem c2_table_sort (rows : List FltRow) :
    (sortTable rows).Perm rows ∧
    List.Sorted (fun a b => a.avgtemp ≤ b.avgtemp) (sortTable rows) ∧
    (∀ r, r ∈ sortTable rows ↔ r ∈ rows) ∧
    (sortTable rows).length = rows.length := by
  have hperm : (sortTable rows).Perm rows := List.perm_insertionSort _ rows
  exact ⟨hperm, List.sorted_insertionSort _ rows,
    fun r => hperm.mem_iff, hperm.length_eq⟩

/-! ## Claim theorems: average temperature -/

/-- **C9** Average-temperature bounds: every row the extraction loop
produces has `avgtemp = (mdecodt1 + mdecodt2) / 2`, which lies between
the minimum and the maximum of the two temperature readings and equals
both when they coincide. -/
theorem c9_avgtemp_bounds (st : FStore) (file : String) (r : FltRow)
    (h : extractRow st file = .ok r) :
    r.avgtemp = (r.mdecodt1 + r.mdecodt2) / 2 ∧
    min r.mdecodt1 r.mdecodt2 ≤ r.avgtemp ∧
    r.avgtemp ≤ max r.mdecodt1 r.mdecodt2 ∧
    (r.mdecodt1 = r.mdecodt2 → r.avgtemp = r.mdecodt1 ∧ r.avgtemp = r.mdecodt2) := by
  obtain ⟨filt, date, time, t1, t2, _, _, _, _, _, rfl⟩ :=
    (extractRow_ok_iff st file r).mp h
  refine ⟨rfl, ?_, ?_, fun he => ?_⟩
  · rcases le_total t1 t2 with ht | ht
    · rw [min_eq_left ht]; show t1 ≤ (t1 + t2) / 2; linarith
    · rw [min_eq_right ht]; show t2 ≤ (t1 + t2) / 2; linarith
  · rcases le_total t1 t2 with ht | ht
    · rw [max_eq_right ht]; show (t1 + t2) / 2 ≤ t2; linarith
    · rw [max_eq_left ht]; show (t1 + t2) / 2 ≤ t1; linarith
  · replace he : t1 = t2 := he
    constructor
    · show (t1 + t2) / 2 = t1; rw [he]; ring
    · show (t1 + t2) / 2 = t2; rw [he]; ring

/-- **C9 witness**: the bounds at the concrete store's science file. -/
theorem c9_avgtemp_bounds_witness :
    min demoRow.mdecodt1 demoRow.mdecodt2 ≤ demoRow.avgtemp ∧
    demoRow.avgtemp ≤ max demoRow.mdecodt1 demoRow.mdecodt2 :=
  ⟨(c9_avgtemp_bounds demoStore "jcmc11ctq_flt.fits" demoRow (by rfl)).2.1,
   (c9_avgtemp_bounds demoStore "jcmc11ctq_flt.fits" demoRow (by rfl)).2.2.1⟩

/-! ## Pixel-area-map application (`acs_pixel_area_maps`, cell 18)

```python
def triple_plot_pam(flt_file, pam_file, figtitle):
    fl_img = fits.getdata(flt_file, ext=1)
    pam_img = fits.getdata(pam_file)
    ...plot fl_img...
    ...plot pam_img...
    pamd_img = fl_img*pam_img
    ...plot pamd_img...
```
-/

/-- Elementwise product of two arrays (`fl_img*pam_img` in numpy, for
arrays of equal shape). -/
def imgMul (a b : Img) : Img :=
  List.zipWith (fun ra rb => List.zipWith (fun x y => x * y) ra rb) a b

/-- The three arrays `triple_plot_pam` renders, in panel order: the raw
science array, the pixel-area map, and their elementwise product.  The
function only reads its two input arrays. -/
def triple_plot_pam (fl_img pam_img : Img) : Img × Img × Img :=
  (fl_img, pam_img, imgMul fl_img pam_img)

/-- One pixel of an array, when the indices are in range. -/
def getPix (m : Img) (i j : Nat) : Option ℚ :=
  (m.get? i).bind (fun row => row.get? j)

/-- Two arrays have the same shape: same number of rows, rows of equal
lengths pointwise. -/
def sameShape (a b : Img) : Prop :=
  List.Forall₂ (fun ra rb : List ℚ => ra.length = rb.length) a b

/-- The product array has the shape of its first factor when shapes agree. -/
theorem imgMul_sameShape (a b : Img) (h : sameShape a b) :
    sameShape (imgMul a b) a := by
  induction h with
  | nil => exact List.Forall₂.nil
  | cons hr _ ih =>
    exact List.Forall₂.cons (by rw [List.length_zipWith, hr, min_self]) ih

/-- **C3** Pixel-area-map application: for a science array and a PAM
array of the same shape, `triple_plot_pam` renders the two inputs
untouched, and the corrected image is exactly the elementwise product —
every output pixel is the product of the corresponding science and PAM
pixels, and every pair of corresponding input pixels yields an output
pixel. -/
theorem c3_pam_application (fl pam : Img) (h : sameShape fl pam) :
    (triple_plot_pam fl pam).1 = fl ∧
    (triple_plot_pam fl pam).2.1 = pam ∧
    sameShape (triple_plot_pam fl pam).2.2 fl ∧
    (∀ i j x y, getPix fl i j = some x → getPix pam i j = some y →
      getPix (triple_plot_pam fl pam).2.2 i j = some (x * y)) ∧
    (∀ i j z, getPix (triple_plot_pam fl pam).2.2 i j = some z →
      ∃ x y, getPix fl i j = some x ∧ getPix pam i j = some y ∧ z = x * y) := by
  refine ⟨rfl, rfl, imgMul_sameShape fl pam h, ?_, ?_⟩
  · intro i j x y hx hy
    obtain ⟨ra, hra, hja⟩ := Option.bind_eq_some.mp hx
    obtain ⟨rb, hrb, hjb⟩ := Option.bind_eq_some.mp hy
    show getPix (imgMul fl pam) i j = some (x * y)
    unfold getPix imgMul
    rw [List.get?_zipWith' _ fl pam i, hra, hrb]
    simp only [Option.map_some', Option.some_bind]
    rw [List.get?_zipWith' _ ra rb j, hja, hjb]
    rfl
  · intro i j z hz
    replace hz : getPix (imgMul fl pam) i j = some z := hz
    unfold getPix imgMul at hz
    rw [List.get?_zipWith' _ fl pam i] at hz
    cases hra : fl.get? i with
    | none => rw [hra] at hz; cases hz
    | some ra =>
      rw [hra] at hz
      cases hrb : pam.get? i with
      | none => rw [hrb] at hz; cases hz
      | some rb =>
        rw [hrb] at hz
        simp only [Option.map_some', Option.some_bind] at hz
        rw [List.get?_zipWith' _ ra rb j] at hz
        cases hja : ra.get? j with
        | none => rw [hja] at hz; cases hz
        | some x =>
          rw [hja] at hz
          cases hjb : rb.get? j with
          | none => rw [hjb] at hz; cases hz
          | some y =>
            rw [hjb] at hz
            simp only [Option.map_some', Option.some_bind, Option.some_inj] at hz
            exact ⟨x, y, by rw [getPix, hra]; exact hja,
              by rw [getPix, hrb]; exact hjb, hz.symm⟩

/-- **C3 witness**: the product characterisation at two concrete 2x2
arrays. -/
theorem c3_pam_application_witness :
    getPix (triple_plot_pam [[1, 2], [3, 4]] [[5, 6], [7, 8]]).2.2 0 1 =
      some ((2 : ℚ) * 6) :=
  (c3_pam_application [[1, 2], [3, 4]] [[5, 6], [7, 8]]
    (List.Forall₂.cons rfl (List.Forall₂.cons rfl List.Forall₂.nil))).2.2.2.1
    0 1 2 6 rfl rfl

/-! ## Housekeeping loop (both notebooks)

```python
for row in dl_table:
    oldfname = row['Local Path']
    newfname = os.path.basename(oldfname)
    os.rename(oldfname, newfname)
shutil.rmtree('mastDownload/')
```
-/

/-- A flat file system: path names mapped to opaque file contents, one
entry per existing file. -/
abbrev FS := List (String × Nat)

/-- Path lookup. -/
def FS.lookup : FS → String → Option Nat
  | [], _ => none
  | (k, c) :: fs, q => if q = k then some c else FS.lookup fs q

/-- Remove a path. -/
def FS.erase : FS → String → FS
  | [], _ => []
  | (k, c) :: fs, q => if k = q then FS.erase fs q else (k, c) :: FS.erase fs q

/-- Whether `s` starts with the string `pre` (on the character lists). -/
def strStartsWith (s pre : String) : Bool :=
  pre.data.isPrefixOf s.data

/-- `os.path.basename`: the part of the path after the last slash. -/
def basename (p : String) : String :=
  ⟨(p.data.reverse.takeWhile (fun c => !(c = '/' : Bool))).reverse⟩

/-- `os.rename(old, new)`: raises when `old` does not exist; otherwise
moves the content, silently replacing any file already at `new`. -/
def osRename (fs : FS) (old new : String) : Except String FS :=
  match FS.lookup fs old with
  | none => .error ("FileNotFoundError " ++ old)
  | some c => .ok ((new, c) :: (FS.erase (FS.erase fs old) new))

/-- The housekeeping loop over the download rows (each row contributing
its local path): rename each file to its basename; an exception aborts
the loop at once, leaving the renames already performed in place. -/
def housekeepingLoop : List String → FS → FS × Option String
  | [], fs => (fs, none)
  | p :: ps, fs =>
    match osRename fs p (basename p) with
    | .error e => (fs, some e)
    | .ok fs2 => housekeepingLoop ps fs2

/-- The success-path fold of the renames (used to phrase the theorems). -/
def renameAll : List String → FS → Except String FS
  | [], fs => .ok fs
  | p :: ps, fs =>
    match osRename fs p (basename p) with
    | .error e => .error e
    | .ok fs2 => renameAll ps fs2

/-- `shutil.rmtree('mastDownload/')`: delete every file under the
download tree. -/
def rmtreeMast : FS → FS
  | [] => []
  | (k, c) :: fs =>
    if strStartsWith k "mastDownload/" then rmtreeMast fs
    else (k, c) :: rmtreeMast fs

/-- The complete housekeeping cell: the rename loop, then — only when no
exception interrupted it — the tree removal. -/
def housekeeping (rows : List String) (fs : FS) : FS × Option String :=
  match housekeepingLoop rows fs with
  | (fs2, none) => (rmtreeMast fs2, none)
  | (fs2, some e) => (fs2, some e)

/-! ## Claim theorems: error propagation -/

/-- **C4** Error propagation: in the housekeeping loop, a library failure
(`os.rename` on a missing file) surfaces as-is: after a successful prefix
of rows, a failing row makes the whole cell return exactly the library's
error — not transformed, not retried (the remaining rows are never
processed, whatever they are), and the renames of the prefix are not
rolled back (the state is exactly the state after the prefix). -/
theorem c4_error_propagation (qs : List String) (p : String)
    (rs : List String) (fs fs2 : FS) (e : String)
    (hpre : renameAll qs fs = .ok fs2)
    (hfail : osRename fs2 p (basename p) = .error e) :
    housekeepingLoop (qs ++ p :: rs) fs = (fs2, some e) ∧
    housekeeping (qs ++ p :: rs) fs = (fs2, some e) := by
  have hloop : housekeepingLoop (qs ++ p :: rs) fs = (fs2, some e) := by
    induction qs generalizing fs with
    | nil =>
      cases hpre
      show (match osRename fs2 p (basename p) with
        | .error e => (fs2, some e)
        | .ok fs3 => housekeepingLoop rs fs3) = _
      rw [hfail]
    | cons q qs ih =>
      unfold renameAll at hpre
      show (match osRename fs q (basename q) with
        | .error e => (fs, some e)
        | .ok fs3 => housekeepingLoop (qs ++ p :: rs) fs3) = _
      cases hq : osRename fs q (basename q) with
      | error e2 => rw [hq] at hpre; cases hpre
      | ok fs3 =>
        rw [hq] at hpre
        exact ih fs3 hpre
  refine ⟨hloop, ?_⟩
  unfold housekeeping
  rw [hloop]

/-- **C4 witness**: a one-row loop over a missing file returns the
library's error unchanged with the file system untouched. -/
theorem c4_error_propagation_witness :
    housekeeping (["mastDownload/HST/x/gone_flt.fits"] ++
        ["mastDownload/HST/x/also_flt.fits"]) [("elsewhere.fits", 7)] =
      ([("elsewhere.fits", 7)],
        some "FileNotFoundError mastDownload/HST/x/gone_flt.fits") :=
  (c4_error_propagation [] "mastDownload/HST/x/gone_flt.fits"
    ["mastDownload/HST/x/also_flt.fits"] [("elsewhere.fits", 7)]
    [("elsewhere.fits", 7)] "FileNotFoundError mastDownload/HST/x/gone_flt.fits"
    rfl rfl).2

/-! ## Helper lemmas for the housekeeping semantics -/

/-- Lookup after erasing a path. -/
theorem lookup_erase : ∀ (fs : FS) (x q : String),
    FS.lookup (FS.erase fs x) q = if q = x then none else FS.lookup fs q
  | [], x, q => by
    simp [FS.erase, FS.lookup]
  | (k, c) :: fs, x, q => by
    unfold FS.erase
    by_cases hk : k = x
    · rw [if_pos hk]
      subst hk
      rw [lookup_erase fs k q]
      by_cases hq : q = k
      · simp [hq]
      · simp [FS.lookup, hq]
    · rw [if_neg hk]
      by_cases hq : q = k
      · subst hq
        have hqx : q ≠ x := hk
        simp [FS.lookup, hqx]
      · simp only [FS.lookup, if_neg hq]
        rw [lookup_erase fs x q]

/-- Lookup after removing the download tree. -/
theorem lookup_rmtree : ∀ (fs : FS) (q : String),
    FS.lookup (rmtreeMast fs) q =
      if strStartsWith q "mastDownload/" = true then none else FS.lookup fs q
  | [], q => by simp [rmtreeMast, FS.lookup]
  | (k, c) :: fs, q => by
    unfold rmtreeMast
    by_cases hk : strStartsWith k "mastDownload/" = true
    · rw [if_pos hk]
      rw [lookup_rmtree fs q]
      by_cases hq : strStartsWith q "mastDownload/" = true
      · simp [hq]
      · by_cases hqk : q = k
        · subst hqk; exact absurd hk hq
        · simp [FS.lookup, hq, hqk]
    · rw [if_neg hk]
      by_cases hqk : q = k
      · subst hqk
        simp [FS.lookup, hk]
      · simp only [FS.lookup, if_neg hqk]
        rw [lookup_rmtree fs q]

/-- Two strings cannot be equal when exactly one starts with `s`. -/
theorem startsWith_ne {a b s : String}
    (ha : strStartsWith a s = true) (hb : strStartsWith b s = false) :
    a ≠ b := by
  rintro rfl
  rw [ha] at hb
  cases hb

/-- One successful rename step leaves every other path alone. -/
theorem rename_preserves_lookup (fs fs2 : FS) (old new q : String)
    (hq1 : q ≠ old) (hq2 : q ≠ new)
    (h : osRename fs old new = .ok fs2) :
    FS.lookup fs2 q = FS.lookup fs q := by
  unfold osRename at h
  cases hc : FS.lookup fs old with
  | none => rw [hc] at h; cases h
  | some c =>
    rw [hc] at h
    cases h
    simp only [FS.lookup, if_neg hq2]
    rw [lookup_erase, if_neg hq2, lookup_erase, if_neg hq1]

/-- One successful rename step moves the content to the new path. -/
theorem rename_moves_content (fs fs2 : FS) (old new : String)
    (h : osRename fs old new = .ok fs2) :
    FS.lookup fs2 new = FS.lookup fs old := by
  unfold osRename at h
  cases hc : FS.lookup fs old with
  | none => rw [hc] at h; cases h
  | some c =>
    rw [hc] at h
    cases h
    simp [FS.lookup]

/-- Paths that are neither renamed from nor renamed to pass through the
whole loop untouched. -/
theorem loop_preserves_lookup : ∀ (rows : List String) (fs : FS) (q : String),
    strStartsWith q "mastDownload/" = false →
    (∀ p ∈ rows, strStartsWith p "mastDownload/" = true) →
    (∀ p ∈ rows, basename p ≠ q) →
    FS.lookup (housekeepingLoop rows fs).1 q = FS.lookup fs q
  | [], _, _, _, _, _ => rfl
  | p :: ps, fs, q, hq, hsrc, hne => by
    unfold housekeepingLoop
    cases hr : osRename fs p (basename p) with
    | error e => rfl
    | ok fs2 =>
      show FS.lookup (housekeepingLoop ps fs2).1 q = FS.lookup fs q
      rw [loop_preserves_lookup ps fs2 q hq
        (fun x hx => hsrc x (List.mem_cons_of_mem _ hx))
        (fun x hx => hne x (List.mem_cons_of_mem _ hx))]
      exact rename_preserves_lookup fs fs2 p (basename p) q
        (startsWith_ne (hsrc p (List.mem_cons_self _ _)) hq).symm
        (Ne.symm (hne p (List.mem_cons_self _ _))) hr

/-- When every row's path exists, the loop finishes without an
exception. -/
theorem loop_success : ∀ (rows : List String) (fs : FS),
    (∀ p ∈ rows, strStartsWith p "mastDownload/" = true) →
    (∀ p ∈ rows, strStartsWith (basename p) "mastDownload/" = false) →
    (∀ p ∈ rows, (FS.lookup fs p).isSome = true) →
    rows.Nodup →
    (housekeepingLoop rows fs).2 = none
  | [], _, _, _, _, _ => rfl
  | p :: ps, fs, hsrc, hbase, hpres, hnodup => by
    unfold housekeepingLoop
    cases hr : osRename fs p (basename p) with
    | error e =>
      exfalso
      unfold osRename at hr
      cases hc : FS.lookup fs p with
      | none =>
        have := hpres p (List.mem_cons_self _ _)
        rw [hc] at this
        cases this
      | some c => rw [hc] at hr; cases hr
    | ok fs2 =>
      show (housekeepingLoop ps fs2).2 = none
      refine loop_success ps fs2
        (fun x hx => hsrc x (List.mem_cons_of_mem _ hx))
        (fun x hx => hbase x (List.mem_cons_of_mem _ hx))
        (fun x hx => ?_) (List.Nodup.of_cons hnodup)
      rw [rename_preserves_lookup fs fs2 p (basename p) x
        (fun hxp => (List.nodup_cons.mp hnodup).1 (hxp ▸ hx))
        (startsWith_ne (hsrc x (List.mem_cons_of_mem _ hx))
          (hbase p (List.mem_cons_self _ _))) hr]
      exact hpres x (List.mem_cons_of_mem _ hx)

/-- After the loop, the file at a row's basename holds the content that
the LAST row sharing that basename had before the loop. -/
theorem loop_lookup_last : ∀ (u : List String) (p : String) (v : List String) (fs : FS),
    (∀ x ∈ u ++ p :: v, strStartsWith x "mastDownload/" = true) →
    (∀ x ∈ u ++ p :: v, strStartsWith (basename x) "mastDownload/" = false) →
    (∀ x ∈ u ++ p :: v, (FS.lookup fs x).isSome = true) →
    (u ++ p :: v).Nodup →
    (∀ q ∈ v, basename q ≠ basename p) →
    FS.lookup (housekeepingLoop (u ++ p :: v) fs).1 (basename p) = FS.lookup fs p
  | [], p, v, fs, hsrc, hbase, hpres, hnodup, hlast => by
    rw [List.nil_append]
    unfold housekeepingLoop
    cases hr : osRename fs p (basename p) with
    | error e =>
      exfalso
      unfold osRename at hr
      cases hc : FS.lookup fs p with
      | none =>
        have := hpres p (List.mem_cons_self _ _)
        rw [hc] at this
        cases this
      | some c => rw [hc] at hr; cases hr
    | ok fs2 =>
      show FS.lookup (housekeepingLoop v fs2).1 (basename p) = FS.lookup fs p
      rw [loop_preserves_lookup v fs2 (basename p)
        (hbase p (List.mem_cons_self _ _))
        (fun x hx => hsrc x (List.mem_cons_of_mem _ hx)) hlast]
      exact rename_moves_content fs fs2 p (basename p) hr
  | w :: u, p, v, fs, hsrc, hbase, hpres, hnodup, hlast => by
    rw [List.cons_append]
    unfold housekeepingLoop
    have hpmem : p ∈ w :: (u ++ p :: v) := by
      rw [← List.cons_append]
      exact List.mem_append_right _ (List.mem_cons_self _ _)
    cases hr : osRename fs w (basename w) with
    | error e =>
      exfalso
      unfold osRename at hr
      cases hc : FS.lookup fs w with
      | none =>
        have := hpres w (List.mem_cons_self _ _)
        rw [hc] at this
        cases this
      | some c => rw [hc] at hr; cases hr
    | ok fs2 =>
      show FS.lookup (housekeepingLoop (u ++ p :: v) fs2).1 (basename p) = FS.lookup fs p
      have hpres2 : ∀ x ∈ u ++ p :: v, (FS.lookup fs2 x).isSome = true := by
        intro x hx
        rw [rename_preserves_lookup fs fs2 w (basename w) x
          (fun hxw => (List.nodup_cons.mp hnodup).1 (hxw ▸ hx))
          (startsWith_ne (hsrc x (List.mem_cons_of_mem _ hx))
            (hbase w (List.mem_cons_self _ _))) hr]
        exact hpres x (List.mem_cons_of_mem _ hx)
      rw [loop_lookup_last u p v fs2
        (fun x hx => hsrc x (List.mem_cons_of_mem _ hx))
        (fun x hx => hbase x (List.mem_cons_of_mem _ hx))
        hpres2 (List.Nodup.of_cons hnodup) hlast]
      exact rename_preserves_lookup fs fs2 w (basename w) p
        (fun hpw => (List.nodup_cons.mp hnodup).1
          (hpw ▸ List.mem_append_right _ (List.mem_cons_self _ _)))
        (startsWith_ne
          (hsrc p (List.mem_cons_of_mem _
            (List.mem_append_right _ (List.mem_cons_self _ _))))
          (hbase w (List.mem_cons_self _ _))) hr

/-- Erasing a path only removes list entries. -/
theorem keys_erase_sublist : ∀ (fs : FS) (x : String),
    ((FS.erase fs x).map Prod.fst).Sublist (fs.map Prod.fst)
  | [], _ => List.Sublist.refl _
  | (k, c) :: fs, x => by
    unfold FS.erase
    by_cases hk : k = x
    · rw [if_pos hk]
      exact (keys_erase_sublist fs x).cons k
    · rw [if_neg hk]
      exact (keys_erase_sublist fs x).cons₂ k

/-- The erased path no longer appears among the keys. -/
theorem not_mem_keys_erase_self : ∀ (fs : FS) (x : String),
    x ∉ (FS.erase fs x).map Prod.fst
  | [], _ => by simp [FS.erase]
  | (k, c) :: fs, x => by
    unfold FS.erase
    by_cases hk : k = x
    · rw [if_pos hk]
      exact not_mem_keys_erase_self fs x
    · rw [if_neg hk]
      intro hmem
      rcases List.mem_cons.mp hmem with heq | hmem2
      · exact hk heq.symm
      · exact not_mem_keys_erase_self fs x hmem2

/-- A successful rename keeps the path names unique. -/
theorem rename_keys_nodup (fs fs2 : FS) (old new : String)
    (h : osRename fs old new = .ok fs2)
    (hn : (fs.map Prod.fst).Nodup) : (fs2.map Prod.fst).Nodup := by
  unfold osRename at h
  cases hc : FS.lookup fs old with
  | none => rw [hc] at h; cases h
  | some c =>
    rw [hc] at h
    cases h
    refine List.nodup_cons.mpr ⟨not_mem_keys_erase_self _ _, ?_⟩
    exact ((keys_erase_sublist _ new).trans (keys_erase_sublist fs old)).nodup hn

/-- The loop keeps the path names unique. -/
theorem loop_keys_nodup : ∀ (rows : List String) (fs : FS),
    (fs.map Prod.fst).Nodup →
    ((housekeepingLoop rows fs).1.map Prod.fst).Nodup
  | [], _, hn => hn
  | p :: ps, fs, hn => by
    unfold housekeepingLoop
    cases hr : osRename fs p (basename p) with
    | error e => exact hn
    | ok fs2 =>
      show ((housekeepingLoop ps fs2).1.map Prod.fst).Nodup
      exact loop_keys_nodup ps fs2 (rename_keys_nodup fs fs2 p (basename p) hr hn)

/-- Tree removal only removes list entries. -/
theorem keys_rmtree_sublist : ∀ (fs : FS),
    ((rmtreeMast fs).map Prod.fst).Sublist (fs.map Prod.fst)
  | [] => List.Sublist.refl _
  | (k, c) :: fs => by
    unfold rmtreeMast
    by_cases hk : strStartsWith k "mastDownload/" = true
    · rw [if_pos hk]
      exact (keys_rmtree_sublist fs).cons k
    · rw [if_neg hk]
      exact (keys_rmtree_sublist fs).cons₂ k

/-! ## Claim theorems: housekeeping move semantics -/

/-- **C10** Housekeeping move semantics: when every download row's path
exists under `mastDownload/` and basenames land outside that tree, the
housekeeping cell finishes without error; afterwards nothing remains
under `mastDownload/`; the file at a row's basename carries the content
of the LAST row with that basename (a later rename silently overwrites an
earlier one); and path names stay unique, so at most one file per
distinct basename remains. -/
theorem c10_housekeeping (rows : List String) (fs : FS)
    (hsrc : ∀ p ∈ rows, strStartsWith p "mastDownload/" = true)
    (hbase : ∀ p ∈ rows, strStartsWith (basename p) "mastDownload/" = false)
    (hpres : ∀ p ∈ rows, (FS.lookup fs p).isSome = true)
    (hnodup : rows.Nodup) :
    (housekeeping rows fs).2 = none ∧
    (∀ q, strStartsWith q "mastDownload/" = true →
      FS.lookup (housekeeping rows fs).1 q = none) ∧
    (∀ u p v, rows = u ++ p :: v → (∀ q ∈ v, basename q ≠ basename p) →
      FS.lookup (housekeeping rows fs).1 (basename p) = FS.lookup fs p) ∧
    ((fs.map Prod.fst).Nodup →
      ((housekeeping rows fs).1.map Prod.fst).Nodup) := by
  have hs := loop_success rows fs hsrc hbase hpres hnodup
  have hpair : housekeepingLoop rows fs = ((housekeepingLoop rows fs).1, none) := by
    rw [← hs]
  have hhk : housekeeping rows fs =
      (rmtreeMast (housekeepingLoop rows fs).1, none) := by
    unfold housekeeping
    rw [hpair]
  refine ⟨by rw [hhk], ?_, ?_, ?_⟩
  · intro q hq
    rw [hhk]
    show FS.lookup (rmtreeMast (housekeepingLoop rows fs).1) q = none
    rw [lookup_rmtree, if_pos hq]
  · intro u p v hsplit hlast
    rw [hhk]
    show FS.lookup (rmtreeMast (housekeepingLoop rows fs).1) (basename p) =
      FS.lookup fs p
    have hpmem : p ∈ rows := by
      rw [hsplit]
      exact List.mem_append_right _ (List.mem_cons_self _ _)
    rw [lookup_rmtree, if_neg (by rw [hbase p hpmem]; simp)]
    rw [hsplit]
    exact loop_lookup_last u p v fs (hsplit ▸ hsrc) (hsplit ▸ hbase)
      (hsplit ▸ hpres) (hsplit ▸ hnodup) hlast
  · intro hfs
    rw [hhk]
    exact (keys_rmtree_sublist _).nodup (loop_keys_nodup rows fs hfs)

/-- **C10 witness**: two downloaded products sharing the basename
`f.fits`; after housekeeping, the survivor carries the second (later)
row's content and the download tree is gone. -/
theorem c10_housekeeping_witness :
    FS.lookup (housekeeping
        ["mastDownload/HST/a/f.fits", "mastDownload/HST/b/f.fits"]
        [("mastDownload/HST/a/f.fits", 1), ("mastDownload/HST/b/f.fits", 2)]).1
      (basename "mastDownload/HST/b/f.fits") =
    FS.lookup [("mastDownload/HST/a/f.fits", 1), ("mastDownload/HST/b/f.fits", 2)]
      "mastDownload/HST/b/f.fits" ∧
    FS.lookup (housekeeping
        ["mastDownload/HST/a/f.fits", "mastDownload/HST/b/f.fits"]
        [("mastDownload/HST/a/f.fits", 1), ("mastDownload/HST/b/f.fits", 2)]).1
      "mastDownload/HST/a/f.fits" = none :=
  ⟨(c10_housekeeping
      ["mastDownload/HST/a/f.fits", "mastDownload/HST/b/f.fits"]
      [("mastDownload/HST/a/f.fits", 1), ("mastDownload/HST/b/f.fits", 2)]
      (by decide) (by decide) (by decide) (by decide)).2.2.1
    ["mastDownload/HST/a/f.fits"] "mastDownload/HST/b/f.fits" [] rfl
    (by intro q hq; cases hq),
   (c10_housekeeping
      ["mastDownload/HST/a/f.fits", "mastDownload/HST/b/f.fits"]
      [("mastDownload/HST/a/f.fits", 1), ("mastDownload/HST/b/f.fits", 2)]
      (by decide) (by decide) (by decide) (by decide)).2.1
    "mastDownload/HST/a/f.fits" (by decide)⟩

/-! ## Cell-order well-formedness of the two notebooks

Each code cell is recorded with the global names its text references from
earlier cells (`uses`) and the global names it binds (`defines`), read off
the notebook sources in cell order.  A notebook is a well-formed linear
tutorial when every used name was defined by an earlier cell. -/

/-- One code cell: the names it needs already defined, and the names it
defines. -/
structure NbCell where
  uses : List String
  defines : List String

/-- Run the cells top to bottom, checking each referenced name against
the environment accumulated so far. -/
def runCells : List String → List NbCell → Bool
  | _, [] => true
  | env, c :: cs =>
    c.uses.all (fun n => env.contains n) && runCells (env ++ c.defines) cs

/-- The first name referenced before any cell defined it, if any. -/
def firstUndefined : List String → List NbCell → Option String
  | _, [] => none
  | env, c :: cs =>
    match c.uses.find? (fun n => !(env.contains n)) with
    | some n => some n
    | none => firstUndefined (env ++ c.defines) cs

/-- The code cells of `acs_pixel_area_maps` in notebook order. -/
def pamCells : List NbCell :=
  [⟨[], ["Observations", "os", "shutil", "pamutils", "fits", "plt"]⟩,
   ⟨["Observations"], ["obs_table", "dl_table"]⟩,
   ⟨["dl_table", "os", "shutil"], ["row", "oldfname", "newfname"]⟩,
   ⟨["fits", "flt_file"], ["hdulist"]⟩,
   ⟨[], ["flt_file"]⟩,
   ⟨["pamutils", "flt_file"], []⟩,
   ⟨["pamutils", "flt_file"], []⟩,
   ⟨[], ["ZScaleInterval", "LinearStretch", "ImageNormalize",
         "ds9_imitate", "triple_plot_pam"]⟩,
   ⟨["triple_plot_pam", "flt_file"], []⟩,
   ⟨["triple_plot_pam", "flt_file"], []⟩]

/-- The code cells of `acs_sbc_dark_analysis` in notebook order. -/
def darkCells : List NbCell :=
  [⟨[], ["os", "shutil", "glob", "plt", "np", "Observations", "adriz",
         "fits", "Table", "wcs", "LogNorm", "EllipticalAperture",
         "aperture_photometry"]⟩,
   ⟨["Observations"], ["science_list", "sci_dl_table"]⟩,
   ⟨["Observations"], ["darks_list", "drk_dl_table"]⟩,
   ⟨["sci_dl_table", "drk_dl_table", "os", "shutil"],
    ["dl_table", "row", "oldfname", "newfname"]⟩,
   ⟨["glob"], ["asn_list", "flt_list", "drk_list"]⟩,
   ⟨["fits", "drk_list"], ["hdulist"]⟩,
   ⟨["Table"], ["flt_table"]⟩,
   ⟨["flt_list", "fits", "flt_table"],
    ["file", "filt", "date", "time", "t1", "t2", "starttime", "avgtemp"]⟩,
   ⟨["flt_table"], []⟩,
   ⟨[], ["driz_kwargs"]⟩,
   ⟨["asn_list", "fits", "adriz", "driz_kwargs"], ["file", "output_name"]⟩,
   ⟨["np"], ["cutter"]⟩,
   ⟨["fits", "cutter", "os", "np", "drk_list"],
    ["sci_list", "file", "image", "img_slice", "neatname"]⟩,
   ⟨["os", "fits"], ["flt_file", "drk_file", "new_file", "darkdat",
                     "exptime", "hdu"]⟩,
   ⟨["os", "fits"], ["flt_file", "drk_file", "new_file", "darkdat",
                     "exptime", "hdu"]⟩,
   ⟨["adriz", "driz_kwargs"], ["adriz_output"]⟩,
   ⟨["fits", "plt", "LogNorm"],
    ["f165lp", "masterdark", "fig", "ax", "plt_kwargs"]⟩,
   ⟨["EllipticalAperture", "np"], ["aper"]⟩,
   ⟨["plt", "f165lp", "masterdark", "plt_kwargs", "aper"], ["fig", "ax"]⟩,
   ⟨["aperture_photometry", "f165lp", "aper", "masterdark"],
    ["f165lp_phot", "masterdark_phot", "sumdiff"]⟩]

/-- **C5** Linear-tutorial well-formedness: FALSE for the repository as a
whole.  The dark-analysis notebook is well-formed, but in the
pixel-area-maps notebook the fourth code cell evaluates `flt_file`
(`with fits.open(flt_file) as hdulist:`) although `flt_file` is first
assigned only in the fifth code cell, so a top-to-bottom run raises
`NameError` there. -/
theorem c5_linear_wellformedness :
    runCells [] darkCells = true ∧
    runCells [] pamCells = false ∧
    firstUndefined [] pamCells = some "flt_file" := by
  refine ⟨by decide, by decide, by decide⟩

/-! ## Deterministic self-contained fragments

Several cited notebook fragments compute values from in-memory inputs
only.  To state that, each fragment is given an extra parameter drawn
from a two-valued stand-in for the external environment (network and
library state); the fragment, translated from the source line, never
consults it. -/

/-- Two distinguishable external-environment states. -/
def World := Bool

/-- Cell 21 of the dark notebook: `avgtemp = (t1+t2) / 2`. -/
def avgtempFragment (t1 t2 : ℚ) (w : World) : ℚ := (t1 + t2) / 2

/-- Cell 21 of the dark notebook: `starttime = date + 'T' + time`. -/
def starttimeFragment (date time : String) (w : World) : String :=
  date ++ "T" ++ time

/-- Cell 30/32 of the dark notebook: the fixed slice
`cutter = np.s_[650:850,580:780]` applied to an image. -/
def cutterSlice (img : Img) : Img :=
  ((img.drop 650).take 200).map (fun row => (row.drop 580).take 200)

/-- Cell 32 of the dark notebook: `np.sum(image[cutter])`. -/
def boxSum (img : Img) : ℚ :=
  ((cutterSlice img).map (fun row => row.sum)).sum

/-- The box-sum fragment with the external-environment parameter. -/
def boxSumFragment (img : Img) (w : World) : ℚ := boxSum img

/-- **C6 counterexample**: the claim "no code fragment's result is a
function of its in-memory inputs alone" is false — the `avgtemp` and
`starttime` fragments, evaluated at fixed in-memory inputs in both
possible external-environment states, return the same value, which is
determined by those inputs. -/
theorem c6_counterexample :
    avgtempFragment 17 19 false = avgtempFragment 17 19 true ∧
    avgtempFragment 17 19 false = (17 + 19) / 2 ∧
    starttimeFragment "2016-10-01" "01:22:11" false =
      starttimeFragment "2016-10-01" "01:22:11" true ∧
    starttimeFragment "2016-10-01" "01:22:11" false = "2016-10-01T01:22:11" :=
  ⟨rfl, rfl, rfl, rfl⟩

/-- **C6 (amended)**: while the dominant steps of both notebooks depend
on the network and external libraries, the repository does contain
deterministic self-contained fragments: the `avgtemp` average, the
`starttime` concatenation and the fixed box-sum slice are functions of
their in-memory inputs alone, independent of the external environment. -/
theorem c6_deterministic_fragments :
    (∀ (t1 t2 : ℚ) (w w' : World),
      avgtempFragment t1 t2 w = avgtempFragment t1 t2 w') ∧
    (∀ (t1 t2 : ℚ) (w : World), avgtempFragment t1 t2 w = (t1 + t2) / 2) ∧
    (∀ (d t : String) (w w' : World),
      starttimeFragment d t w = starttimeFragment d t w') ∧
    (∀ (img : Img) (w w' : World),
      boxSumFragment img w = boxSumFragment img w') :=
  ⟨fun _ _ _ _ => rfl, fun _ _ _ => rfl, fun _ _ _ _ => rfl, fun _ _ _ => rfl⟩

/-! ## Sequential execution of the drizzle loop

The cited loop (`for file in asn_list: ... adriz(file, ...)`) is embedded
as a small-step transition system whose state is the pair (asn files not
yet processed, trace of adriz invocations already performed).  Absence of
concurrency is the content of the two theorems: the step relation is
deterministic (never two interleavable successors), and any complete run
performs exactly the program-order trace. -/

/-- One loop iteration: process the next asn file, record its adriz
invocation at the end of the trace. -/
inductive DrizStep : List String × List String → List String × List String → Prop
  | exec (f : String) (fs tr : List String) :
      DrizStep (f :: fs, tr) (fs, tr ++ [f])

/-- Zero or more loop iterations. -/
inductive DrizSteps : List String × List String → List String × List String → Prop
  | refl (s : List String × List String) : DrizSteps s s
  | head {s t u : List String × List String} :
      DrizStep s t → DrizSteps t u → DrizSteps s u

/-- Any run reaching the empty work list has performed exactly the
pending files, appended in order to the starting trace. -/
theorem drizSteps_trace : ∀ (s : List String × List String)
    (out : List String), DrizSteps s ([], out) → out = s.2 ++ s.1 := by
  intro s out h
  generalize hend : (([], out) : List String × List String) = e at h
  induction h with
  | refl s =>
    cases hend
    simp
  | head hstep _ ih =>
    cases hstep with
    | exec f fs tr =>
      have := ih hend
      rw [this]
      simp

/-- The loop can always run to completion in program order. -/
theorem drizSteps_run : ∀ (fs tr : List String),
    DrizSteps (fs, tr) ([], tr ++ fs)
  | [], tr => by
    rw [List.append_nil]
    exact DrizSteps.refl _
  | f :: fs, tr => by
    refine DrizSteps.head (DrizStep.exec f fs tr) ?_
    have h := drizSteps_run fs (tr ++ [f])
    rw [List.append_assoc] at h
    simpa using h

/-- One operation of a dark-frame substitution cell, as the operations
appear in cells 34/35 of the dark notebook.  `osSystem cmd` is
`os.system(cmd)`: it spawns a shell subprocess running `cmd` and blocks
until it exits; the `fits` operations run in-process. -/
inductive NbOp where
  | osSystem (cmd : String)
  | fitsGetdata (file : String)
  | fitsGetval (file key : String)
  | fitsOpenUpdate (file : String)
  deriving DecidableEq, Repr

/-- Whether the operation spawns a subprocess: `os.system` does (it forks
a shell), the in-process library calls do not. -/
def NbOp.spawnsSubprocess : NbOp → Bool
  | .osSystem _ => true
  | _ => false

/-- The operations of one dark-frame substitution cell, in source order:
`os.system('cp flt new')`, `fits.getdata(drk)`,
`fits.getval(drk, 'exptime', ext=0)`, `fits.open(new, mode='update')`. -/
def darkSubCellOps (flt drk new : String) : List NbOp :=
  [.osSystem ("cp " ++ flt ++ " " ++ new),
   .fitsGetdata drk,
   .fitsGetval drk "exptime",
   .fitsOpenUpdate new]

/-- **C7 counterexample**: the claim that no operation in the notebooks
spawns a thread, process, or asynchronous task is false — the dark
notebook's first substitution cell (cell 34, with its concrete file
names) contains an operation that spawns a subprocess, namely the
`os.system('cp jcmc11ctq_flt.fits dark1.fits')` shell invocation. -/
theorem c7_counterexample :
    (darkSubCellOps "jcmc11ctq_flt.fits" "jcrx01iiq_raw.fits"
      "dark1.fits").any NbOp.spawnsSubprocess = true ∧
    NbOp.spawnsSubprocess
      (.osSystem "cp jcmc11ctq_flt.fits dark1.fits") = true :=
  ⟨rfl, rfl⟩

/-- **C7 (amended)** Strictly sequential execution with synchronous shell
copies: every step executes single-threaded in program order — the
embedded drizzle loop is a deterministic transition system (each state
has at most one successor, so no two steps' effects can interleave) whose
complete runs perform exactly the program-order trace of adriz
invocations — and the only operations that spawn another process are the
blocking `os.system('cp …')` shell calls of the dark-frame substitution
cells: within such a cell exactly that one operation spawns a subprocess,
and every other operation runs in-process. -/
theorem c7_sequential_amended :
    (∀ s t t', DrizStep s t → DrizStep s t' → t = t') ∧
    (∀ files, DrizSteps (files, []) ([], files)) ∧
    (∀ files tr, DrizSteps (files, []) ([], tr) → tr = files) ∧
    (∀ flt drk new op, op ∈ darkSubCellOps flt drk new →
      (op.spawnsSubprocess = true ↔
        op = .osSystem ("cp " ++ flt ++ " " ++ new))) ∧
    (∀ flt drk new,
      (darkSubCellOps flt drk new).filter NbOp.spawnsSubprocess =
        [.osSystem ("cp " ++ flt ++ " " ++ new)]) := by
  refine ⟨?_, ?_, ?_, ?_, ?_⟩
  · intro s t t' h h'
    cases h with
    | exec f fs tr =>
      cases h' with
      | exec _ _ _ => rfl
  · intro files
    have h := drizSteps_run files []
    simpa using h
  · intro files tr h
    have := drizSteps_trace (files, []) tr h
    simpa using this
  · intro flt drk new op hop
    rcases List.mem_cons.mp hop with rfl | hop
    · simp [NbOp.spawnsSubprocess]
    rcases List.mem_cons.mp hop with rfl | hop
    · simp [NbOp.spawnsSubprocess]
    rcases List.mem_cons.mp hop with rfl | hop
    · simp [NbOp.spawnsSubprocess]
    rcases List.mem_cons.mp hop with rfl | hop
    · simp [NbOp.spawnsSubprocess]
    · cases hop
  · intro flt drk new
    rfl

/-- **C7 witness**: determinism and the program-order trace at a concrete
two-file drizzle run, and the spawn characterisation at cell 34's
concrete operation. -/
theorem c7_sequential_amended_witness :
    ((["jcmc11ctq_asn.fits"], ["jcmc11010_asn.fits"]) :
        List String × List String) =
      (["jcmc11ctq_asn.fits"], ["jcmc11010_asn.fits"]) ∧
    ["jcmc11010_asn.fits", "jcmc11ctq_asn.fits"] =
      ["jcmc11010_asn.fits", "jcmc11ctq_asn.fits"] ∧
    ((NbOp.osSystem "cp jcmc11ctq_flt.fits dark1.fits").spawnsSubprocess = true ↔
      NbOp.osSystem "cp jcmc11ctq_flt.fits dark1.fits" =
        .osSystem ("cp " ++ "jcmc11ctq_flt.fits" ++ " " ++ "dark1.fits")) :=
  ⟨(c7_sequential_amended.1)
      (["jcmc11010_asn.fits", "jcmc11ctq_asn.fits"], [])
      (["jcmc11ctq_asn.fits"], ["jcmc11010_asn.fits"])
      (["jcmc11ctq_asn.fits"], ["jcmc11010_asn.fits"])
      (DrizStep.exec "jcmc11010_asn.fits" ["jcmc11ctq_asn.fits"] [])
      (DrizStep.exec "jcmc11010_asn.fits" ["jcmc11ctq_asn.fits"] []),
   (c7_sequential_amended.2.2.1)
      ["jcmc11010_asn.fits", "jcmc11ctq_asn.fits"]
      ["jcmc11010_asn.fits", "jcmc11ctq_asn.fits"]
      (DrizSteps.head
        (DrizStep.exec "jcmc11010_asn.fits" ["jcmc11ctq_asn.fits"] [])
        (DrizSteps.head
          (DrizStep.exec "jcmc11ctq_asn.fits" [] ["jcmc11010_asn.fits"])
          (DrizSteps.refl _))),
   (c7_sequential_amended.2.2.2.1)
      "jcmc11ctq_flt.fits" "jcrx01iiq_raw.fits" "dark1.fits"
      (.osSystem "cp jcmc11ctq_flt.fits dark1.fits")
      (by rw [show ("cp jcmc11ctq_flt.fits dark1.fits" : String) =
           "cp " ++ "jcmc11ctq_flt.fits" ++ " " ++ "dark1.fits" from rfl]
          exact List.mem_cons_self _ _)⟩

/-! ## Dark-frame substitution (`acs_sbc_dark_analysis`, cells 34/35)

```python
os.system('cp {:} {:}'.format(flt_file, new_file))
darkdat = fits.getdata(drk_file)
exptime = fits.getval(drk_file, 'exptime', ext=0)
with fits.open(new_file,mode='update') as hdu:
    hdu[1].data[:,:] = darkdat
    hdu[0].header['exptime'] = exptime
```
-/

/-- Remove a file from the store. -/
def FStore.eraseFile : FStore → String → FStore
  | [], _ => []
  | (k, f) :: st, q =>
    if k = q then FStore.eraseFile st q else (k, f) :: FStore.eraseFile st q

/-- Write a file (create or overwrite). -/
def FStore.setFile (st : FStore) (k : String) (f : HduList) : FStore :=
  (k, f) :: FStore.eraseFile st k

/-- `fits.getdata(name)`: the data array of the first image extension
(extension 1 for these files). -/
def getdataExt1 (st : FStore) (name : String) : Except String Img :=
  match st.lookupFile name with
  | none => .error ("FileNotFoundError " ++ name)
  | some f =>
    match f.get? 1 with
    | none => .error ("IndexError " ++ name)
    | some hdu => .ok hdu.data

/-- The in-place update of the copied file: overwrite the SCI extension's
pixels (`hdu[1].data[:,:] = darkdat`, legal only for matching shapes) and
set the primary header's `exptime` card. -/
def updateDark (f : HduList) (darkdat : Img) (expt : HVal) :
    Except String HduList :=
  match f with
  | h0 :: h1 :: rest =>
    if h1.data.map List.length == darkdat.map List.length then
      .ok ({ h0 with header := h0.header.setVal "exptime" expt } ::
           { h1 with data := darkdat } :: rest)
    else .error "ValueError could not broadcast"
  | _ => .error "IndexError hdu 1"

/-- `os.system('cp src dst')`: copy a file; a failed copy only sets the
ignored exit status, leaving the store unchanged. -/
def cpFile (st : FStore) (src dst : String) : FStore :=
  match st.lookupFile src with
  | none => st
  | some f => FStore.setFile st dst f

/-- The whole substitution cell: copy the science file to `new`, read
the dark's data and exposure time, then update the copy in place. -/
def darkSubCell (st : FStore) (flt drk new : String) : Except String FStore :=
  match getdataExt1 (cpFile st flt new) drk with
  | .error e => .error e
  | .ok darkdat =>
  match getvalE (cpFile st flt new) drk "exptime" 0 with
  | .error e => .error e
  | .ok expt =>
  match (cpFile st flt new).lookupFile new with
  | none => .error ("FileNotFoundError " ++ new)
  | some nf =>
  match updateDark nf darkdat expt with
  | .error e => .error e
  | .ok nf2 => .ok (FStore.setFile (cpFile st flt new) new nf2)

/-! ## Header and store frame lemmas -/

/-- Lookup in a header with an explicit head entry. -/
theorem getVal_cons (p : String × HVal) (h : Header) (q : String) :
    Header.getVal (p :: h) q = if p.1 = q then some p.2 else h.getVal q := by
  unfold Header.getVal
  by_cases hp : p.1 = q
  · rw [List.find?_cons_of_pos _ (by simp [hp]), if_pos hp]
    rfl
  · rw [List.find?_cons_of_neg _ (by simp [hp]), if_neg hp]

/-- Rewriting the `k0` entries in place leaves other keys alone. -/
theorem getVal_mapSet_ne : ∀ (h : Header) (k0 q : String) (v : HVal), q ≠ k0 →
    Header.getVal (h.map (fun p => if p.1 == k0 then (k0, v) else p)) q =
      h.getVal q
  | [], _, _, _, _ => rfl
  | p :: h, k0, q, v, hne => by
    rw [List.map_cons]
    by_cases hp : (p.1 == k0) = true
    · have hpk : p.1 = k0 := by simpa using hp
      rw [if_pos hp, getVal_cons, getVal_cons,
        if_neg (show ¬ ((k0, v).1 = q) from fun hh => hne hh.symm),
        if_neg (show ¬ (p.1 = q) from fun hh => hne (hh ▸ hpk))]
      exact getVal_mapSet_ne h k0 q v hne
    · rw [if_neg hp, getVal_cons, getVal_cons]
      by_cases hpq : p.1 = q
      · rw [if_pos hpq, if_pos hpq]
      · rw [if_neg hpq, if_neg hpq]
        exact getVal_mapSet_ne h k0 q v hne

/-- Rewriting the `k0` entries in place installs the new value at `k0`
when an entry with that key exists. -/
theorem getVal_mapSet_self : ∀ (h : Header) (k0 : String) (v : HVal),
    h.any (fun p => p.1 == k0) = true →
    Header.getVal (h.map (fun p => if p.1 == k0 then (k0, v) else p)) k0 =
      some v
  | [], _, _, hany => by cases hany
  | p :: h, k0, v, hany => by
    rw [List.map_cons]
    by_cases hp : (p.1 == k0) = true
    · rw [if_pos hp, getVal_cons, if_pos (show (k0, v).1 = k0 from rfl)]
    · rw [if_neg hp, getVal_cons,
        if_neg (show ¬ (p.1 = k0) from fun hh => hp (by simp [hh]))]
      refine getVal_mapSet_self h k0 v ?_
      rcases List.any_eq_true.mp hany with ⟨x, hx, hxk⟩
      rcases List.mem_cons.mp hx with rfl | hx2
      · exact absurd hxk hp
      · exact List.any_eq_true.mpr ⟨x, hx2, hxk⟩

/-- Appending a fresh `(k0, v)` entry leaves other keys alone. -/
theorem getVal_append_ne : ∀ (h : Header) (k0 q : String) (v : HVal), q ≠ k0 →
    Header.getVal (h ++ [(k0, v)]) q = h.getVal q
  | [], k0, q, v, hne => by
    rw [List.nil_append, getVal_cons,
      if_neg (show ¬ ((k0, v).1 = q) from fun hh => hne hh.symm)]
  | p :: h, k0, q, v, hne => by
    rw [List.cons_append, getVal_cons, getVal_cons]
    by_cases hpq : p.1 = q
    · rw [if_pos hpq, if_pos hpq]
    · rw [if_neg hpq, if_neg hpq]
      exact getVal_append_ne h k0 q v hne

/-- Appending a fresh `(k0, v)` entry makes `k0` resolve to `v` when no
entry with that key existed. -/
theorem getVal_append_self : ∀ (h : Header) (k0 : String) (v : HVal),
    h.any (fun p => p.1 == k0) = false →
    Header.getVal (h ++ [(k0, v)]) k0 = some v
  | [], k0, v, _ => by
    rw [List.nil_append, getVal_cons, if_pos (show (k0, v).1 = k0 from rfl)]
  | p :: h, k0, v, hany => by
    rw [List.any_cons] at hany
    have hor := Bool.or_eq_false_iff.mp hany
    rw [List.cons_append, getVal_cons,
      if_neg (show ¬ (p.1 = k0) from fun hh => absurd hor.1 (by simp [hh]))]
    exact getVal_append_self h k0 v hor.2

/-- `header[k] = v` leaves every other keyword's value unchanged. -/
theorem getVal_setVal_ne (h : Header) (k0 : String) (v : HVal) (q : String)
    (hne : q ≠ k0) : (h.setVal k0 v).getVal q = h.getVal q := by
  unfold Header.setVal
  by_cases hany : h.any (fun p => p.1 == k0) = true
  · rw [if_pos hany]
    exact getVal_mapSet_ne h k0 q v hne
  · rw [if_neg hany]
    exact getVal_append_ne h k0 q v hne

/-- `header[k] = v` makes `k` resolve to `v`. -/
theorem getVal_setVal_self (h : Header) (k0 : String) (v : HVal) :
    (h.setVal k0 v).getVal k0 = some v := by
  unfold Header.setVal
  by_cases hany : h.any (fun p => p.1 == k0) = true
  · rw [if_pos hany]
    exact getVal_mapSet_self h k0 v hany
  · rw [if_neg hany]
    exact getVal_append_self h k0 v (Bool.eq_false_iff.mpr hany)

/-- Lookup with an explicit head entry. -/
theorem lookupFile_cons (k : String) (f : HduList) (st : FStore) (q : String) :
    FStore.lookupFile ((k, f) :: st) q =
      if k = q then some f else st.lookupFile q := by
  unfold FStore.lookupFile
  by_cases hk : k = q
  · rw [List.find?_cons_of_pos _ (by simp [hk]), if_pos hk]
    rfl
  · rw [List.find?_cons_of_neg _ (by simp [hk]), if_neg hk]

/-- Lookup after erasing a file. -/
theorem lookupFile_eraseFile : ∀ (st : FStore) (x q : String),
    FStore.lookupFile (FStore.eraseFile st x) q =
      if q = x then none else st.lookupFile q
  | [], x, q => by
    unfold FStore.eraseFile
    simp [FStore.lookupFile]
  | (k, f) :: st, x, q => by
    unfold FStore.eraseFile
    by_cases hk : k = x
    · rw [if_pos hk]
      subst hk
      rw [lookupFile_eraseFile st k q]
      by_cases hq : q = k
      · simp [hq]
      · rw [if_neg hq, if_neg hq, lookupFile_cons,
          if_neg (fun hh => hq hh.symm)]
    · rw [if_neg hk, lookupFile_cons]
      by_cases hkq : k = q
      · subst hkq
        rw [if_pos rfl, if_neg hk, lookupFile_cons, if_pos rfl]
      · rw [if_neg hkq, lookupFile_eraseFile st x q]
        by_cases hqx : q = x
        · rw [if_pos hqx, if_pos hqx]
        · rw [if_neg hqx, if_neg hqx, lookupFile_cons, if_neg hkq]

/-- Lookup after writing a file. -/
theorem lookupFile_setFile (st : FStore) (k : String) (f : HduList)
    (q : String) :
    FStore.lookupFile (FStore.setFile st k f) q =
      if q = k then some f else st.lookupFile q := by
  unfold FStore.setFile
  rw [lookupFile_cons]
  by_cases h : k = q
  · rw [if_pos h, if_pos h.symm]
  · rw [if_neg h, if_neg (fun hh => h hh.symm), lookupFile_eraseFile,
      if_neg (fun hh => h hh.symm)]

/-! ## Claim theorems: dark-frame substitution -/

/-- **C8** Frame effect of dark-frame substitution: when the science file
exists and the substitution cell succeeds, every file other than the copy
— in particular the original science file and the dark file — is
untouched, and the copy differs from the science file only in the data
array of extension 1 (now the dark's pixels) and the `exptime` keyword of
its primary header (now the dark's exposure time); the primary data, the
SCI extension's header (hence the WCS keywords), every further extension
and every other primary keyword are unchanged. -/
theorem c8_dark_substitution (st : FStore) (flt drk new : String)
    (sci : HduList) (st2 : FStore)
    (hflt : flt ≠ new) (hdrk : drk ≠ new)
    (hsci : st.lookupFile flt = some sci)
    (h : darkSubCell st flt drk new = .ok st2) :
    (∀ q, q ≠ new → FStore.lookupFile st2 q = FStore.lookupFile st q) ∧
    FStore.lookupFile st2 flt = FStore.lookupFile st flt ∧
    FStore.lookupFile st2 drk = FStore.lookupFile st drk ∧
    ∃ darkdat expt h0 h1 rest,
      getdataExt1 st drk = .ok darkdat ∧
      getvalE st drk "exptime" 0 = .ok expt ∧
      sci = h0 :: h1 :: rest ∧
      FStore.lookupFile st2 new =
        some ({ h0 with header := h0.header.setVal "exptime" expt } ::
              { h1 with data := darkdat } :: rest) ∧
      ({ h0 with header := h0.header.setVal "exptime" expt }).data = h0.data ∧
      ({ h1 with data := darkdat }).header = h1.header ∧
      (h0.header.setVal "exptime" expt).getVal "exptime" = some expt ∧
      (∀ k, k ≠ "exptime" →
        (h0.header.setVal "exptime" expt).getVal k = h0.header.getVal k) := by
  have hcp : cpFile st flt new = FStore.setFile st new sci := by
    unfold cpFile
    rw [hsci]
  have hlookdrk : FStore.lookupFile (FStore.setFile st new sci) drk =
      FStore.lookupFile st drk := by
    rw [lookupFile_setFile, if_neg hdrk]
  have hgd : getdataExt1 (cpFile st flt new) drk = getdataExt1 st drk := by
    unfold getdataExt1
    rw [hcp, hlookdrk]
  have hgv : getvalE (cpFile st flt new) drk "exptime" 0 =
      getvalE st drk "exptime" 0 := by
    unfold getvalE
    rw [hcp, hlookdrk]
  have hnew : (cpFile st flt new).lookupFile new = some sci := by
    rw [hcp, lookupFile_setFile, if_pos rfl]
  cases hdd : getdataExt1 st drk with
  | error e =>
    exfalso
    have hrun : darkSubCell st flt drk new = .error e := by
      unfold darkSubCell
      rw [hgd, hdd]
    rw [hrun] at h
    cases h
  | ok darkdat =>
  cases hex : getvalE st drk "exptime" 0 with
  | error e =>
    exfalso
    have hrun : darkSubCell st flt drk new = .error e := by
      unfold darkSubCell
      rw [hgd, hdd, hgv, hex]
    rw [hrun] at h
    cases h
  | ok expt =>
  have hrun : darkSubCell st flt drk new =
      (match updateDark sci darkdat expt with
       | .error e => .error e
       | .ok nf2 => .ok (FStore.setFile (cpFile st flt new) new nf2)) := by
    unfold darkSubCell
    rw [hgd, hdd, hgv, hex, hnew]
  cases hupd : updateDark sci darkdat expt with
  | error e =>
    exfalso
    rw [hupd] at hrun
    rw [hrun] at h
    cases h
  | ok nf2 =>
  rw [hupd] at hrun
  have hrun2 : darkSubCell st flt drk new =
      .ok (FStore.setFile (cpFile st flt new) new nf2) := hrun
  rw [hrun2] at h
  cases h
  have hq : ∀ q, q ≠ new →
      FStore.lookupFile (FStore.setFile (cpFile st flt new) new nf2) q =
        FStore.lookupFile st q := by
    intro q hqn
    rw [lookupFile_setFile, if_neg hqn, hcp, lookupFile_setFile, if_neg hqn]
  refine ⟨hq, hq flt hflt, hq drk hdrk, ?_⟩
  cases sci with
  | nil => simp only [updateDark] at hupd; cases hupd
  | cons h0 tail =>
    cases tail with
    | nil => simp only [updateDark] at hupd; cases hupd
    | cons h1 rest =>
      simp only [updateDark] at hupd
      split at hupd
      · cases hupd
        refine ⟨darkdat, expt, h0, h1, rest, rfl, rfl, rfl, ?_, rfl, rfl,
          getVal_setVal_self _ _ _,
          fun k hk => getVal_setVal_ne _ _ _ _ hk⟩
        rw [lookupFile_setFile, if_pos rfl]
      · cases hupd

/-- **C8 witness**: the frame effect at a concrete store holding a
two-extension science file and a two-extension dark. -/
theorem c8_dark_substitution_witness :
    FStore.lookupFile (FStore.setFile (cpFile demoStore
        "jcmc11ctq_flt.fits" "dark1.fits") "dark1.fits"
        ({ header := [("FILTER1", .str "F165LP"),
                      ("DATE-OBS", .str "2016-10-01"),
                      ("TIME-OBS", .str "01:22:11"),
                      ("exptime", .num 1000)], data := [] } ::
         { header := [("MDECODT1", .num 17), ("MDECODT2", .num 19)],
           data := [[5, 6], [7, 8]] } :: []))
      "jcmc11ctq_flt.fits" =
      FStore.lookupFile demoStore "jcmc11ctq_flt.fits" := by
  have h := c8_dark_substitution demoStore "jcmc11ctq_flt.fits"
    "jcrx01iiq_raw.fits" "dark1.fits"
    [⟨[("FILTER1", .str "F165LP"), ("DATE-OBS", .str "2016-10-01"),
       ("TIME-OBS", .str "01:22:11")], []⟩,
     ⟨[("MDECODT1", .num 17), ("MDECODT2", .num 19)], [[1, 2], [3, 4]]⟩]
    (FStore.setFile (cpFile demoStore "jcmc11ctq_flt.fits" "dark1.fits")
      "dark1.fits"
      ({ header := [("FILTER1", .str "F165LP"),
                    ("DATE-OBS", .str "2016-10-01"),
                    ("TIME-OBS", .str "01:22:11"),
                    ("exptime", .num 1000)], data := [] } ::
       { header := [("MDECODT1", .num 17), ("MDECODT2", .num 19)],
         data := [[5, 6], [7, 8]] } :: []))
    (by decide) (by decide) rfl rfl
  exact h.2.1

end AcsNotebook
